import Mathlib

/-!
Verification of the OpenVault memory pipeline (a SillyTavern extension).

The JavaScript sources are shallowly embedded: JS objects become structures,
JS `Object` key/value maps become insertion-ordered association lists,
numbers become `Int`/`Nat`/`ℚ` as appropriate, thrown exceptions become
`Except`, and the external LLM call becomes an `Except String String`
parameter.  Each definition names the source function it embeds.
-/

namespace OpenVault

/-! ### String helpers

JS string primitives used by the pipeline, modelled over `String.data`
(char lists) so that everything reduces in the kernel.
`Char.toLower` models JS `toLowerCase` (faithful on ASCII names).
-/

/-- JS `s.toLowerCase()` (ASCII-faithful model). -/
def lowerStr (s : String) : String := ⟨s.data.map Char.toLower⟩

/-- Does `cs` start with `ns`? (helper for substring search). -/
def startsW : List Char → List Char → Bool
  | _, [] => true
  | [], _ :: _ => false
  | c :: cs, n :: ns => c == n && startsW cs ns

/-- Does `hay` contain `needle` as a contiguous run? -/
def hasSub (hay needle : List Char) : Bool :=
  match hay with
  | [] => needle.isEmpty
  | _ :: t => startsW hay needle || hasSub t needle

/-- JS `hay.includes(needle)` on strings (substring test). -/
def strIncludes (hay needle : String) : Bool := hasSub hay.data needle.data

/-! ### Data model (section 3 of the design; `index.js` storage shapes) -/

/-- A stored memory event (`parseExtractionResult` output shape). -/
structure MemoryEvent where
  id : String
  event_type : String
  summary : String
  characters_involved : List String
  witnesses : List String
  location : String
  is_secret : Bool
  emotional_impact : List (String × String)
  relationship_impact : List (String × String)
  message_ids : List Nat
  created_at : ℚ
  deriving DecidableEq, Repr

/-- Derived per-character state (`data.character_states` values). -/
structure CharacterState where
  name : String
  current_emotion : String
  emotion_intensity : Int
  known_events : List String
  last_updated : ℚ
  deriving DecidableEq, Repr

/-- One relationship history entry (`history.push` in
`updateRelationshipsFromEvents`). -/
structure HistoryEntry where
  event_id : String
  impact : String
  timestamp : ℚ
  deriving DecidableEq, Repr

/-- Derived relationship record (`data.relationships` values). -/
structure Relationship where
  character_a : String
  character_b : String
  trust_level : Int
  tension_level : Int
  relationship_type : String
  history : List HistoryEntry
  deriving DecidableEq, Repr

/-- One host chat turn (`{id, is_system, is_user, name, mes}`). -/
structure ChatMessage where
  is_system : Bool
  is_user : Bool
  name : String
  mes : String
  deriving DecidableEq, Repr

/-- The persistent per-chat store (`getOpenVaultData()` shape). -/
structure VaultData where
  memories : List MemoryEvent
  character_states : List (String × CharacterState)
  relationships : List (String × Relationship)
  last_processed_message_id : Int
  last_extraction_batch : String
  deriving DecidableEq, Repr

/-- Return value of a successful `extractMemories` run. -/
structure ExtractResult where
  events_created : Nat
  messages_processed : Nat
  deriving DecidableEq, Repr

/-! ### Association lists

JS objects keep insertion order; lookups are by key, and assignment either
overwrites in place or appends a fresh key at the end.
-/

/-- JS `obj[k]` (first match by key). -/
def alistGet {α : Type} (l : List (String × α)) (k : String) : Option α :=
  (l.find? (fun p => p.1 == k)).map (fun p => p.2)

/-- JS `obj[k] = v`: overwrite in place, or append a fresh key. -/
def alistSet {α : Type} : List (String × α) → String → α → List (String × α)
  | [], k, v => [(k, v)]
  | (k', v') :: t, k, v =>
      if k' == k then (k, v) :: t else (k', v') :: alistSet t k v

/-! ### POV filter (`retrieveAndInjectContext`, index.js lines 933-956) -/

/-- The filter predicate of the POV filtering step (index.js lines 939-947):
witness match is case-insensitive, the `characters_involved` route requires
the event to be non-secret, and `known_events` matches by event id. -/
def povVisible (charNameLower : String) (knownEventIds : List String)
    (m : MemoryEvent) : Bool :=
  m.witnesses.any (fun w => lowerStr w == charNameLower) ||
  (!m.is_secret && m.characters_involved.any (fun c => lowerStr c == charNameLower)) ||
  knownEventIds.contains m.id

/-- `accessibleMemories` of `retrieveAndInjectContext`: the POV filtering
step applied to the whole store. -/
def accessibleMemories (memories : List MemoryEvent) (characterName : String)
    (knownEventIds : List String) : List MemoryEvent :=
  memories.filter (povVisible (lowerStr characterName) knownEventIds)

/-- The fail-open fallback that follows the filtering step (index.js lines
951-956): if the filter kept nothing but the store is non-empty, use the
full store. -/
def memoriesToUse (memories : List MemoryEvent) (characterName : String)
    (knownEventIds : List String) : List MemoryEvent :=
  let acc := accessibleMemories memories characterName knownEventIds
  if acc.length = 0 ∧ memories.length ≠ 0 then memories else acc

/-! ### Relationship propagation (`updateRelationshipsFromEvents`,
index.js lines 802-849) -/

/-- One candidate split of the JS regex match
`relationKey.match(/^(.+?)\s*->\s*(.+)$/)`: group 1 is the first `i`
characters, then optional whitespace, the literal arrow, optional
whitespace, and a non-empty remainder (backtracking returns the last
whitespace character to group 2 when the remainder is all whitespace;
the dot is modelled as matching any character). -/
def relSplitAt (cs : List Char) (i : Nat) : Option (String × String) :=
  let a := cs.take i
  let rest1 := (cs.drop i).dropWhile Char.isWhitespace
  if startsW rest1 ['-', '>'] then
    let after := rest1.drop 2
    let b := after.dropWhile Char.isWhitespace
    if b.isEmpty then
      if after.isEmpty then none
      else some (⟨a⟩, ⟨after.drop (after.length - 1)⟩)
    else some (⟨a⟩, ⟨b⟩)
  else none

/-- The arrow-key parse used on `relationship_impact` keys: the lazy group
takes the shortest viable first segment. `none` models a failed match
(the entry is skipped). -/
def parseRelationKey (s : String) : Option (String × String) :=
  (List.range' 1 s.data.length).findSome? (relSplitAt s.data)

/-- Fresh relationship record created on first sight of a pair key. -/
def defaultRelationship (a b : String) : Relationship :=
  { character_a := a, character_b := b, trust_level := 5, tension_level := 0,
    relationship_type := "acquaintance", history := [] }

/-- The keyword heuristics plus unconditional history append applied to one
relationship record (index.js lines 826-845). -/
def applyImpact (rel : Relationship) (eventId impact : String) (now : ℚ) :
    Relationship :=
  let il := lowerStr impact
  let rel1 :=
    if strIncludes il "trust" && strIncludes il "increas" then
      { rel with trust_level := min 10 (rel.trust_level + 1) }
    else if strIncludes il "trust" && strIncludes il "decreas" then
      { rel with trust_level := max 0 (rel.trust_level - 1) }
    else rel
  let rel2 :=
    if strIncludes il "tension" && strIncludes il "increas" then
      { rel1 with tension_level := min 10 (rel1.tension_level + 1) }
    else if strIncludes il "tension" && strIncludes il "decreas" then
      { rel1 with tension_level := max 0 (rel1.tension_level - 1) }
    else rel1
  { rel2 with history := rel2.history ++ [⟨eventId, impact, now⟩] }

/-- Processing of one `relationship_impact` entry: parse the arrow key,
skip silently on failure, otherwise build the `<->` key from the as-given
direction, create the record if absent, and apply the impact. -/
def processImpactEntry (now : ℚ) (eventId : String)
    (rels : List (String × Relationship)) (entry : String × String) :
    List (String × Relationship) :=
  match parseRelationKey entry.1 with
  | none => rels
  | some (charA, charB) =>
      let key := charA ++ "<->" ++ charB
      let rel0 := (alistGet rels key).getD (defaultRelationship charA charB)
      alistSet rels key (applyImpact rel0 eventId entry.2 now)

/-- `updateRelationshipsFromEvents`: fold every impact entry of every event
over the relationship store. -/
def updateRelationshipsFromEvents (now : ℚ) (events : List MemoryEvent)
    (rels : List (String × Relationship)) : List (String × Relationship) :=
  events.foldl
    (fun rs e => e.relationship_impact.foldl (processImpactEntry now e.id) rs)
    rels

/-- The [0,10] bounds on a relationship's numeric levels. -/
def relInRange (r : Relationship) : Prop :=
  0 ≤ r.trust_level ∧ r.trust_level ≤ 10 ∧
  0 ≤ r.tension_level ∧ r.tension_level ≤ 10

/-! ### Generic preservation lemmas -/

theorem foldl_preserves {α β : Type} (P : α → Prop) (f : α → β → α)
    (hf : ∀ a b, P a → P (f a b)) :
    ∀ (l : List β) (a : α), P a → P (l.foldl f a)
  | [], _, h => h
  | b :: t, a, h => foldl_preserves P f hf t (f a b) (hf a b h)

theorem relInRange_default (a b : String) :
    relInRange (defaultRelationship a b) := by
  norm_num [relInRange, defaultRelationship]

theorem alistGet_prop {α : Type} {P : α → Prop} {l : List (String × α)}
    {k : String} {v : α} (h : ∀ p ∈ l, P p.2) (hget : alistGet l k = some v) :
    P v := by
  unfold alistGet at hget
  rcases Option.map_eq_some'.mp hget with ⟨p, hfind, hv⟩
  exact hv ▸ h p (List.mem_of_find?_eq_some hfind)

theorem alistSet_prop {α : Type} {P : α → Prop} :
    ∀ {l : List (String × α)} {k : String} {v : α},
    (∀ p ∈ l, P p.2) → P v → ∀ p ∈ alistSet l k v, P p.2 := by
  intro l
  induction l with
  | nil =>
      intro k v _ hv p hp
      simp only [alistSet, List.mem_singleton] at hp
      simpa [hp]
  | cons hd t ih =>
      intro k v hl hv p hp
      simp only [alistSet] at hp
      by_cases hk : hd.1 == k
      · rw [if_pos hk] at hp
        rcases List.mem_cons.mp hp with h1 | h2
        · simpa [h1]
        · exact hl p (List.mem_cons_of_mem hd h2)
      · rw [if_neg hk] at hp
        rcases List.mem_cons.mp hp with h1 | h2
        · exact h1 ▸ hl hd (List.mem_cons_self hd t)
        · exact ih (fun q hq => hl q (List.mem_cons_of_mem hd hq)) hv p h2

theorem relInRange_applyImpact {r : Relationship} (h : relInRange r)
    (eventId impact : String) (now : ℚ) :
    relInRange (applyImpact r eventId impact now) := by
  obtain ⟨h1, h2, h3, h4⟩ := h
  unfold applyImpact
  simp only [relInRange]
  split_ifs <;> (try simp) <;> omega

theorem relInRange_processImpactEntry {rels : List (String × Relationship)}
    (h : ∀ p ∈ rels, relInRange p.2) (now : ℚ) (eventId : String)
    (entry : String × String) :
    ∀ p ∈ processImpactEntry now eventId rels entry, relInRange p.2 := by
  unfold processImpactEntry
  cases hp : parseRelationKey entry.1 with
  | none => exact h
  | some ab =>
      dsimp only
      apply alistSet_prop h
      apply relInRange_applyImpact
      cases hg : alistGet rels (ab.1 ++ "<->" ++ ab.2) with
      | none =>
          simp only [hg, Option.getD_none]
          exact relInRange_default ab.1 ab.2
      | some v =>
          simp only [hg, Option.getD_some]
          exact alistGet_prop h hg

/-! ### Theorems for claim C4 -/

/-- **C4.** If every relationship record in the store has `trust_level`
and `tension_level` within [0,10] (as do the defaults 5 and 0), then after
propagating any sequence of events with arbitrary `relationship_impact`
texts, every record still has both levels within [0,10]. -/
theorem trust_tension_stay_in_range (now : ℚ) (events : List MemoryEvent)
    (rels : List (String × Relationship))
    (h : ∀ p ∈ rels, relInRange p.2) :
    ∀ p ∈ updateRelationshipsFromEvents now events rels, relInRange p.2 := by
  unfold updateRelationshipsFromEvents
  refine foldl_preserves (fun rs => ∀ p ∈ rs, relInRange p.2) _ ?_ events rels h
  intro rs e hrs
  exact foldl_preserves (fun rs => ∀ p ∈ rs, relInRange p.2) _
    (fun a b ha => relInRange_processImpactEntry ha now e.id b)
    e.relationship_impact rs hrs

/-- Witness for C4: propagating one concrete trust-and-tension event over
the empty store leaves the resulting record (trust 6, tension 1) in
range. -/
theorem trust_tension_stay_in_range_witness :
    relInRange
      ({ character_a := "Alice", character_b := "Bob", trust_level := 6,
         tension_level := 1, relationship_type := "acquaintance",
         history := [⟨"e1", "trust increased", 0⟩,
           ⟨"e1", "tension increased", 0⟩] } : Relationship) :=
  trust_tension_stay_in_range 0
    [{ id := "e1", event_type := "relationship_change", summary := "s",
       characters_involved := ["Alice", "Bob"], witnesses := ["Alice"],
       location := "unknown", is_secret := false, emotional_impact := [],
       relationship_impact := [("Alice->Bob", "trust increased"),
         ("Alice->Bob", "tension increased")],
       message_ids := [0], created_at := 0 }] []
    (by intro p hp; cases hp)
    ("Alice<->Bob",
      { character_a := "Alice", character_b := "Bob", trust_level := 6,
        tension_level := 1, relationship_type := "acquaintance",
        history := [⟨"e1", "trust increased", 0⟩,
                    ⟨"e1", "tension increased", 0⟩] })
    (by decide)

/-! ### Theorems for claim C7 -/

/-- An event carrying a single relationship-impact entry (helper for the
relationship-key theorems). -/
def mkImpactEvent (eid key impact : String) : MemoryEvent :=
  { id := eid, event_type := "relationship_change", summary := "s",
    characters_involved := [], witnesses := [], location := "unknown",
    is_secret := false, emotional_impact := [],
    relationship_impact := [(key, impact)], message_ids := [0],
    created_at := 0 }

/-- **C7 counterexample.** Processing the impact key `Alice->Bob` and then
`Bob->Alice` does not update a single record: the store ends with two
separate records, one per direction, refuting the unordered-pair claim. -/
theorem relationship_reversed_direction_second_record :
    (updateRelationshipsFromEvents 0
        [mkImpactEvent "e1" "Alice->Bob" "trust increased",
         mkImpactEvent "e2" "Bob->Alice" "trust increased"] []).map Prod.fst
      = ["Alice<->Bob", "Bob<->Alice"] := by decide

/-- **C7 amended.** The relationship store is keyed by the ordered pair in
the as-written direction of the impact key: `A->B` creates and updates the
record keyed `A<->B` with `character_a = A`, and a later `B->A` creates a
separate second record keyed `B<->A` (whenever the two rendered keys
differ, which holds for ordinary distinct names). -/
theorem relationship_key_as_written_direction
    (now : ℚ) (k1 k2 t1 t2 id1 id2 A B : String)
    (hp1 : parseRelationKey k1 = some (A, B))
    (hp2 : parseRelationKey k2 = some (B, A))
    (hne : A ++ "<->" ++ B ≠ B ++ "<->" ++ A) :
    (updateRelationshipsFromEvents now
        [mkImpactEvent id1 k1 t1, mkImpactEvent id2 k2 t2] []).map Prod.fst
      = [A ++ "<->" ++ B, B ++ "<->" ++ A] := by
  simp [updateRelationshipsFromEvents, mkImpactEvent, processImpactEntry,
    hp1, hp2, alistGet, alistSet, hne]

/-- Witness for the amended C7 theorem at the concrete keys
`Alice->Bob` and `Bob->Alice`. -/
theorem relationship_key_as_written_direction_witness :
    (updateRelationshipsFromEvents 0
        [mkImpactEvent "e1" "Alice->Bob" "x",
         mkImpactEvent "e2" "Bob->Alice" "y"] []).map Prod.fst
      = ["Alice<->Bob", "Bob<->Alice"] :=
  relationship_key_as_written_direction 0 "Alice->Bob" "Bob->Alice" "x" "y"
    "e1" "e2" "Alice" "Bob" (by decide) (by decide) (by decide)

/-! ### Character-state propagation (`updateCharacterStatesFromEvents`,
index.js lines 760-797) -/

/-- Fresh character state created on first sight of a name. -/
def defaultCharacterState (name : String) : CharacterState :=
  { name := name, current_emotion := "neutral", emotion_intensity := 5,
    known_events := [], last_updated := 0 }

/-- One `emotional_impact` entry: create the state if absent, then set
`current_emotion` and `last_updated`. -/
def applyEmotionalImpact (now : ℚ) (cs : List (String × CharacterState))
    (entry : String × String) : List (String × CharacterState) :=
  let st := (alistGet cs entry.1).getD (defaultCharacterState entry.1)
  alistSet cs entry.1
    { st with current_emotion := entry.2, last_updated := now }

/-- One witness: create the state if absent, then add the event id to
`known_events` unless already present. -/
def applyWitness (eventId : String) (cs : List (String × CharacterState))
    (w : String) : List (String × CharacterState) :=
  let st := (alistGet cs w).getD (defaultCharacterState w)
  let st2 :=
    if st.known_events.contains eventId then st
    else { st with known_events := st.known_events ++ [eventId] }
  alistSet cs w st2

/-- `updateCharacterStatesFromEvents`: per event, fold the emotional
impacts and then the witnesses over the character-state store. -/
def updateCharacterStatesFromEvents (now : ℚ) (events : List MemoryEvent)
    (cs : List (String × CharacterState)) : List (String × CharacterState) :=
  events.foldl
    (fun acc e =>
      let acc1 := e.emotional_impact.foldl (applyEmotionalImpact now) acc
      e.witnesses.foldl (applyWitness e.id) acc1)
    cs

/-! ### Turn selection and the extraction cycle (`extractMemories`,
src/unnamed/part_000 lines 124-235) -/

/-- JS `v || d` on numbers stored as `Int` (0 is falsy). -/
def jsOrInt (v d : Int) : Int := if v = 0 then d else v

/-- JS `v || d` on numbers stored as `Nat` (0 is falsy). -/
def jsOrNat (v d : Nat) : Nat := if v = 0 then d else v

/-- The fields JS `{...undefined}` spread leaves falsy/undefined. -/
def defaultChatMessage : ChatMessage :=
  { is_system := false, is_user := false, name := "", mes := "" }

/-- JS `{ id, ...chat[id] }` of the explicit-ids branch: an out-of-range
index spreads `undefined`, leaving the default (falsy) fields. -/
def msgAt (chat : List ChatMessage) (id : Nat) : Nat × ChatMessage :=
  (id, (chat.get? id).getD defaultChatMessage)

/-- The automatic branch: enumerate the chat, keep non-system turns past
the last-processed marker, and take the last `messageCount` of them
(JS `slice(-messageCount)`). -/
def autoSelectMessages (chat : List ChatMessage) (lastProcessedId : Int)
    (messageCount : Nat) : List (Nat × ChatMessage) :=
  let l := chat.enum.filter
    (fun p => !p.2.is_system && decide (lastProcessedId < (p.1 : Int)))
  l.drop (l.length - messageCount)

/-- `messagesToExtract` selection of `extractMemories` (part_000 lines
145-160): explicit ids (the backfill path) are mapped straight into the
batch with no `is_system` filter (the JS `.filter(m => m)` never drops an
object); absent or empty ids fall back to the automatic branch. -/
def selectMessagesToExtract (messageIds : Option (List Nat))
    (chat : List ChatMessage) (lastProcessedId : Int) (messageCount : Nat) :
    List (Nat × ChatMessage) :=
  match messageIds with
  | some ids =>
      if 0 < ids.length then ids.map (msgAt chat)
      else autoSelectMessages chat lastProcessedId messageCount
  | none => autoSelectMessages chat lastProcessedId messageCount

/-- One extraction cycle (`extractMemories`, part_000 lines 124-235).

The external pieces are parameters: `parse` stands for
`parseExtractionResult` applied to this batch, `llm` for the outcome of
`callLLMForExtraction` (`Except.error` models a thrown call), `now` for
`Date.now()`, `batchId` for the generated batch id.  The first component
of the result is the store after the cycle; the second is `.error` when
the cycle throws, `.ok none` on an early guard return (disabled, empty
chat, empty selection) and `.ok (some r)` on a completed cycle.
`Math.max(...ids)` is modelled as a fold from -1, equal on the non-empty
lists of Nat ids it is applied to. -/
def extractMemories (parse : String → List MemoryEvent)
    (llm : Except String String) (now : ℚ) (batchId : String)
    (enabled : Bool) (messageIds : Option (List Nat))
    (chat : List ChatMessage) (messagesPerExtraction : Nat)
    (data : VaultData) : VaultData × Except String (Option ExtractResult) :=
  if !enabled then (data, .ok none)
  else if chat.length = 0 then (data, .ok none)
  else
    let msgs := selectMessagesToExtract messageIds chat
      (jsOrInt data.last_processed_message_id (-1))
      (jsOrNat messagesPerExtraction 5)
    if msgs.length = 0 then (data, .ok none)
    else
      match llm with
      | .error e => (data, .error e)
      | .ok content =>
          let events := parse content
          if 0 < events.length then
            let d1 := { data with memories := data.memories ++ events }
            let d2 := { d1 with character_states :=
              updateCharacterStatesFromEvents now events d1.character_states }
            let d3 := { d2 with relationships :=
              updateRelationshipsFromEvents now events d2.relationships }
            let maxId : Int := (msgs.map (fun p => (p.1 : Int))).foldl max (-1)
            let d4 := { d3 with
              last_processed_message_id :=
                max (jsOrInt d3.last_processed_message_id (-1)) maxId,
              last_extraction_batch := batchId }
            (d4, .ok (some ⟨events.length, msgs.length⟩))
          else
            (data, .ok (some ⟨0, msgs.length⟩))

/-- The empty initial store (`getOpenVaultData()` defaults). -/
def vaultData0 : VaultData :=
  { memories := [], character_states := [], relationships := [],
    last_processed_message_id := -1, last_extraction_batch := "" }

/-! ### Theorems for claims C2 and C3 -/

/-- A two-turn chat used by the concrete extraction theorems. -/
def chatTwo : List ChatMessage :=
  [{ is_system := false, is_user := true, name := "User", mes := "hi" },
   { is_system := false, is_user := false, name := "Char", mes := "hello" }]

/-- **C2 counterexample.** On a fresh store over a two-turn chat (attempted
turn set {0,1}), a successful LLM call whose parse yields zero events
completes the cycle with `events_created = 0`, yet the last-processed
marker stays at -1 instead of advancing to 1 as the claim requires: the
whole store is returned unchanged. -/
theorem zero_events_marker_not_advanced :
    extractMemories (fun _ => []) (.ok "[]") 0 "b1" true none chatTwo 5
        vaultData0
      = (vaultData0, .ok (some { events_created := 0, messages_processed := 2 }))
    ∧ vaultData0.last_processed_message_id = -1 ∧ (-1 : Int) < 1 :=
  ⟨rfl, rfl, by decide⟩

/-- **C2 amended.** When the LLM call succeeds and the parser yields zero
events, the cycle completes successfully (returning `events_created = 0`
over the attempted turn set) but commits nothing: the store, including the
last-processed marker, is returned exactly as it was; the marker advances
only when at least one event is extracted. -/
theorem zero_events_cycle_succeeds_marker_unchanged
    (parse : String → List MemoryEvent) (content : String) (now : ℚ)
    (batchId : String) (messageIds : Option (List Nat))
    (chat : List ChatMessage) (count : Nat) (data : VaultData)
    (hchat : chat.length ≠ 0)
    (hmsgs : (selectMessagesToExtract messageIds chat
        (jsOrInt data.last_processed_message_id (-1))
        (jsOrNat count 5)).length ≠ 0)
    (hparse : parse content = []) :
    extractMemories parse (.ok content) now batchId true messageIds chat
        count data
      = (data, .ok (some ⟨0, (selectMessagesToExtract messageIds chat
            (jsOrInt data.last_processed_message_id (-1))
            (jsOrNat count 5)).length⟩)) := by
  unfold extractMemories
  simp [hchat, hmsgs, hparse]

/-- Witness for the amended C2 theorem on the concrete two-turn chat. -/
theorem zero_events_cycle_succeeds_marker_unchanged_witness :
    extractMemories (fun _ => []) (.ok "[]") 0 "b1" true none chatTwo 5
        vaultData0
      = (vaultData0, .ok (some ⟨0, (selectMessagesToExtract none chatTwo
            (jsOrInt vaultData0.last_processed_message_id (-1))
            (jsOrNat 5 5)).length⟩)) :=
  zero_events_cycle_succeeds_marker_unchanged (fun _ => []) "[]" 0 "b1"
    none chatTwo 5 vaultData0 (by decide) (by decide) rfl

/-- **C3.** When the LLM call throws, the cycle never commits partial
state: the store (event list, character states, relationships, marker) is
returned unchanged in every path, and whenever the cycle actually ran
(enabled, non-empty chat, non-empty selection) the error itself propagates
to the caller. -/
theorem llm_failure_propagates_no_state_change
    (parse : String → List MemoryEvent) (e : String) (now : ℚ)
    (batchId : String) (enabled : Bool) (messageIds : Option (List Nat))
    (chat : List ChatMessage) (count : Nat) (data : VaultData) :
    (extractMemories parse (.error e) now batchId enabled messageIds chat
        count data).1 = data
    ∧ (enabled = true → chat.length ≠ 0 →
        (selectMessagesToExtract messageIds chat
          (jsOrInt data.last_processed_message_id (-1))
          (jsOrNat count 5)).length ≠ 0 →
        (extractMemories parse (.error e) now batchId enabled messageIds
            chat count data).2 = .error e) := by
  constructor
  · unfold extractMemories
    dsimp only
    split_ifs <;> rfl
  · intro hen hchat hmsgs
    unfold extractMemories
    simp [hen, hchat, hmsgs]

/-- Witness for C3: a thrown LLM call on the concrete two-turn chat leaves
the fresh store untouched and surfaces the error. -/
theorem llm_failure_propagates_no_state_change_witness :
    (extractMemories (fun _ => []) (.error "boom") 0 "b1" true none chatTwo
        5 vaultData0).1 = vaultData0
    ∧ (true = true → chatTwo.length ≠ 0 →
        (selectMessagesToExtract none chatTwo
          (jsOrInt vaultData0.last_processed_message_id (-1))
          (jsOrNat 5 5)).length ≠ 0 →
        (extractMemories (fun _ => []) (.error "boom") 0 "b1" true none
            chatTwo 5 vaultData0).2 = .error "boom") :=
  llm_failure_propagates_no_state_change (fun _ => []) "boom" 0 "b1" true
    none chatTwo 5 vaultData0

/-! ### Theorems for claim C10 -/

/-- **C10.** Turn selection of `extractMemories`: with an explicit
non-empty id list (the backfill path) the batch is exactly the given ids
paired with their chat entries — system/hidden messages included, nothing
is filtered out; with no ids, the automatic branch selects only
non-system messages with id strictly greater than the last-processed
marker, and at most `messageCount` of them. -/
theorem selection_explicit_vs_automatic
    (ids : List Nat) (chat : List ChatMessage) (lastProcessedId : Int)
    (count : Nat) (hids : ids ≠ []) :
    selectMessagesToExtract (some ids) chat lastProcessedId count
        = ids.map (msgAt chat)
    ∧ (∀ p ∈ selectMessagesToExtract none chat lastProcessedId count,
        p.2.is_system = false ∧ lastProcessedId < (p.1 : Int))
    ∧ (selectMessagesToExtract none chat lastProcessedId count).length
        ≤ count := by
  refine ⟨?_, ?_, ?_⟩
  · have h : 0 < ids.length := List.length_pos.mpr hids
    simp [selectMessagesToExtract, h]
  · intro p hp
    unfold selectMessagesToExtract autoSelectMessages at hp
    have hmem := List.mem_of_mem_drop hp
    have := (List.mem_filter.mp hmem).2
    simp only [Bool.and_eq_true, Bool.not_eq_true', decide_eq_true_eq] at this
    exact this
  · unfold selectMessagesToExtract autoSelectMessages
    simp only [List.length_drop]
    omega

/-- Witness for C10 on a chat whose first turn is a system message: the
explicit branch still selects it, while the automatic branch obeys the
filter and the count bound. -/
theorem selection_explicit_vs_automatic_witness :
    (let chat : List ChatMessage :=
      [{ is_system := true, is_user := false, name := "sys", mes := "m" },
       { is_system := false, is_user := true, name := "User", mes := "hi" }];
     selectMessagesToExtract (some [0, 1]) chat (-1) 5
        = [0, 1].map (msgAt chat)
    ∧ (∀ p ∈ selectMessagesToExtract none chat (-1) 5,
        p.2.is_system = false ∧ (-1 : Int) < (p.1 : Int))
    ∧ (selectMessagesToExtract none chat (-1) 5).length ≤ 5) :=
  selection_explicit_vs_automatic [0, 1]
    [{ is_system := true, is_user := false, name := "sys", mes := "m" },
     { is_system := false, is_user := true, name := "User", mes := "hi" }]
    (-1) 5 (by decide)

/-! ### Backfill planning (`extractAllMessages`, src/unnamed/part_000
lines 243-297) -/

/-- The batching numbers computed by `extractAllMessages` before the
batch loop. -/
structure BackfillPlan where
  eligible : List Nat
  completeBatches : Nat
  completeMessageCount : Nat
  remainder : Nat
  messagesToExtract : List Nat
  deriving DecidableEq, Repr

/-- The planning phase of `extractAllMessages`: drop already-extracted
ids, reserve the most recent `messageCount` turns (JS
`slice(0, -messageCount)`), and truncate to the largest prefix that is an
exact multiple of the batch size. -/
def backfillPlan (chatLen : Nat) (alreadyExtractedIds : List Nat)
    (messagesPerExtraction : Nat) : BackfillPlan :=
  let messageCount := jsOrNat messagesPerExtraction 5
  let allMessageIds := (List.range chatLen).filter
    (fun idx => !alreadyExtractedIds.contains idx)
  let eligible := allMessageIds.take (allMessageIds.length - messageCount)
  let completeBatches := eligible.length / messageCount
  let completeMessageCount := completeBatches * messageCount
  let remainder := eligible.length - completeMessageCount
  let messagesToExtract :=
    if 0 < remainder then eligible.take completeMessageCount else eligible
  ⟨eligible, completeBatches, completeMessageCount, remainder,
    messagesToExtract⟩

/-! ### Theorems for claim C5 -/

/-- **C5.** Backfill over 23 never-extracted turns with batch size 5 and a
reserved tail of 5: the eligible set has 18 turns, exactly 3 complete
batches (15 turns) are processed, and the remaining 3 turns are
deferred — the processed set is the prefix of 15 turn ids. -/
theorem backfill_plan_23_turns :
    (backfillPlan 23 [] 5).eligible.length = 18
    ∧ (backfillPlan 23 [] 5).completeBatches = 3
    ∧ (backfillPlan 23 [] 5).completeMessageCount = 15
    ∧ (backfillPlan 23 [] 5).remainder = 3
    ∧ (backfillPlan 23 [] 5).messagesToExtract = List.range 15 := by
  decide

/-! ### The backfill batch loop (`extractAllMessages`, src/unnamed/part_000
lines 315-349) -/

/-- Did the batch succeed? (`extractMemories` returned instead of
throwing). -/
def okB (r : Except String Nat) : Bool :=
  match r with
  | .ok _ => true
  | .error _ => false

/-- Events credited to a batch: `result?.events_created || 0` on success,
nothing on a thrown batch. -/
def evCount (r : Except String Nat) : Nat :=
  match r with
  | .ok n => n
  | .error _ => 0

/-- One iteration of the backfill loop: on success, accumulate the event
count and record the batch index in the completed set (idempotent add);
on failure, log and continue unchanged. -/
def backfillStep (outcome : Nat → Except String Nat)
    (acc : List Nat × Nat) (i : Nat) : List Nat × Nat :=
  match outcome i with
  | .ok n => (if acc.1.contains i then acc.1 else acc.1 ++ [i], acc.2 + n)
  | .error _ => acc

/-- The backfill loop over batch indices `0..k-1`, starting from a
completed-batch set and a zero event total.  `outcome i` stands for the
`extractMemories` call on batch `i` (`.error` models a throw). -/
def runBackfillBatches (outcome : Nat → Except String Nat) (k : Nat)
    (extractedBatches0 : List Nat) : List Nat × Nat :=
  (List.range k).foldl (backfillStep outcome) (extractedBatches0, 0)

theorem backfillStep_foldl_spec (outcome : Nat → Except String Nat) :
    ∀ (idxs : List Nat) (eb : List Nat) (t : Nat),
    idxs.Nodup → (∀ i ∈ idxs, i ∉ eb) →
    idxs.foldl (backfillStep outcome) (eb, t)
      = (eb ++ idxs.filter (fun i => okB (outcome i)),
         t + (idxs.map (fun i => evCount (outcome i))).sum) := by
  intro idxs
  induction idxs with
  | nil => intro eb t _ _; simp
  | cons i rest ih =>
      intro eb t hnd hfresh
      have hi : i ∉ eb := hfresh i (List.mem_cons_self i rest)
      have hndr : rest.Nodup := (List.nodup_cons.mp hnd).2
      have hir : i ∉ rest := (List.nodup_cons.mp hnd).1
      have hfresh2 : ∀ j ∈ rest, j ∉ eb :=
        fun j hj => hfresh j (List.mem_cons_of_mem i hj)
      simp only [List.foldl_cons]
      cases ho : outcome i with
      | ok n =>
          have hc : eb.contains i = false := by simpa using hi
          have hstep : backfillStep outcome (eb, t) i = (eb ++ [i], t + n) := by
            simp [backfillStep, ho, hc, hi]
          have hfr : ∀ j ∈ rest, j ∉ eb ++ [i] := by
            intro j hj
            simp only [List.mem_append, List.mem_singleton]
            rintro (hjeb | hje)
            · exact hfresh2 j hj hjeb
            · exact hir (hje ▸ hj)
          rw [hstep, ih (eb ++ [i]) (t + n) hndr hfr]
          have h1 : List.filter (fun j => okB (outcome j)) (i :: rest)
              = i :: List.filter (fun j => okB (outcome j)) rest := by
            simp [List.filter_cons, okB, ho]
          have h2 : (List.map (fun j => evCount (outcome j)) (i :: rest)).sum
              = n + (List.map (fun j => evCount (outcome j)) rest).sum := by
            simp [evCount, ho]
          rw [h1, h2, List.append_assoc, ← Nat.add_assoc]
          rfl
      | error e =>
          have hstep : backfillStep outcome (eb, t) i = (eb, t) := by
            simp [backfillStep, ho]
          rw [hstep, ih eb t hndr hfresh2]
          simp [List.filter_cons, List.map_cons, okB, evCount, ho]

/-! ### Theorems for claim C6 -/

/-- **C6.** Batch failure isolation: over batches `0..k-1` with any
per-batch outcomes, every batch is attempted; the completed-batch set ends
up exactly the indices whose extraction succeeded (a thrown batch is
skipped, not retried, and does not abort the loop), and the reported event
total is the sum over the successful batches only. -/
theorem backfill_batch_failure_isolation
    (outcome : Nat → Except String Nat) (k : Nat) :
    runBackfillBatches outcome k []
      = ((List.range k).filter (fun i => okB (outcome i)),
         ((List.range k).map (fun i => evCount (outcome i))).sum) := by
  have h := backfillStep_foldl_spec outcome (List.range k) [] 0
    (List.nodup_range k) (by simp)
  simpa using h

/-! ### Relevance scoring (`selectRelevantMemories`, index.js lines
1019-1058) -/

/-- Split a char list at whitespace (JS `split(/\s+/)` up to empty
fragments from whitespace runs, which the length filter removes in both
readings). -/
def splitWSAux : List Char → List Char → List String
  | [], acc => [⟨acc.reverse⟩]
  | c :: cs, acc =>
      if c.isWhitespace then ⟨acc.reverse⟩ :: splitWSAux cs []
      else splitWSAux cs (c :: acc)

/-- JS `s.split(/\s+/)` modulo empty fragments. -/
def splitWS (s : String) : List String := splitWSAux s.data []

/-- The per-memory relevance score of `selectRelevantMemories`: recency,
then the active-character loop (+5 involvement, +3 witness per matching
character), then +1 per occurrence of a long context word found in the
summary, then the event-type bonuses. -/
def scoreMemory (now : ℚ) (activeCharacters : List String)
    (recentContext : String) (m : MemoryEvent) : ℚ :=
  let score0 : ℚ := max 0 (10 - (now - m.created_at) / 3600000)
  let score1 := activeCharacters.foldl
    (fun s c => s + (if m.characters_involved.contains c then 5 else 0)
                  + (if m.witnesses.contains c then 3 else 0)) score0
  let summaryLower := lowerStr m.summary
  let contextWords :=
    (splitWS (lowerStr recentContext)).filter (fun w => 3 < w.length)
  let score2 := contextWords.foldl
    (fun s w => s + (if strIncludes summaryLower w then 1 else 0)) score1
  let score3 := score2 + (if m.event_type == "revelation" then 3 else 0)
  score3 + (if m.event_type == "relationship_change" then 2 else 0)

/-- The score the claim describes, written from the claim's words: its
keyword term counts each *distinct* matching context word once. -/
def claimedScoreMemory (now : ℚ) (activeCharacters : List String)
    (recentContext : String) (m : MemoryEvent) : ℚ :=
  max 0 (10 - (now - m.created_at) / 3600000)
  + 5 * ((activeCharacters.filter
      (fun c => m.characters_involved.contains c)).length : ℚ)
  + 3 * ((activeCharacters.filter
      (fun c => m.witnesses.contains c)).length : ℚ)
  + ((((splitWS (lowerStr recentContext)).filter
      (fun w => 3 < w.length)).dedup.filter
      (fun w => strIncludes (lowerStr m.summary) w)).length : ℚ)
  + (if m.event_type == "revelation" then 3 else 0)
  + (if m.event_type == "relationship_change" then 2 else 0)

/-- Summation lemmas for the scoring folds. -/
theorem foldl_add_map_sum {α : Type} (f : α → ℚ) :
    ∀ (l : List α) (s : ℚ),
    l.foldl (fun a x => a + f x) s = s + (l.map f).sum
  | [], s => by simp
  | x :: t, s => by
      simp only [List.foldl_cons, List.map_cons, List.sum_cons]
      rw [foldl_add_map_sum f t (s + f x)]
      ring

theorem foldl_add2_map_sum {α : Type} (f g : α → ℚ) :
    ∀ (l : List α) (s : ℚ),
    l.foldl (fun a x => a + f x + g x) s
      = s + (l.map f).sum + (l.map g).sum
  | [], s => by simp
  | x :: t, s => by
      simp only [List.foldl_cons, List.map_cons, List.sum_cons]
      rw [foldl_add2_map_sum f g t (s + f x + g x)]
      ring

theorem sum_map_ite {α : Type} (p : α → Bool) (q : ℚ) :
    ∀ l : List α,
    (l.map (fun x => if p x then q else 0)).sum = q * ((l.filter p).length : ℚ)
  | [] => by simp
  | x :: t => by
      simp only [List.map_cons, List.sum_cons, List.filter_cons]
      rw [sum_map_ite p q t]
      by_cases hx : p x <;> (simp [hx]; try ring)

/-! ### Theorems for claim C8 -/

/-- **C8 counterexample.** With no active characters, a fresh memory whose
summary is the word `that`, and recent context `that that`, the code's
score is 12 (recency 10 plus one point per *occurrence* of the context
word) while the claimed formula (one point per *distinct* word) gives 11:
the claim's keyword term is wrong. -/
theorem score_counts_occurrences_not_distinct_words :
    (let m : MemoryEvent :=
      { id := "e1", event_type := "action", summary := "that",
        characters_involved := [], witnesses := [], location := "unknown",
        is_secret := false, emotional_impact := [], relationship_impact := [],
        message_ids := [0], created_at := 0 };
     scoreMemory 0 [] "that that" m = 12
     ∧ claimedScoreMemory 0 [] "that that" m = 11) := by
  have hw : (splitWS (lowerStr "that that")).filter (fun w => 3 < w.length)
      = ["that", "that"] := by decide
  have hd : ((splitWS (lowerStr "that that")).filter
        (fun w => 3 < w.length)).dedup.filter
        (fun w => strIncludes (lowerStr "that") w) = ["that"] := by decide
  have hs : strIncludes (lowerStr "that") "that" = true := by decide
  have h1 : (("action" : String) == "revelation") = false := by decide
  have h2 : (("action" : String) == "relationship_change") = false := by decide
  constructor
  · simp only [scoreMemory, hw, hs, h1, h2, List.foldl_cons, List.foldl_nil,
      if_true, if_false, Bool.false_eq_true, List.filter_nil]
    norm_num [max_def]
  · simp only [claimedScoreMemory, hd, h1, h2, Bool.false_eq_true, if_false,
      List.filter_nil, List.length_nil, List.length_cons]
    norm_num [max_def]

/-- **C8 amended.** The Relevance Selector's score equals exactly:
`max(0, 10 − ageHours)` recency; +5 per active character in
`characters_involved` and +3 per active character in `witnesses`; +1 per
*occurrence* of a word longer than 3 characters in the whitespace-split
lower-cased recent context that is a substring of the lower-cased summary
(a repeated word counts once per occurrence); +3 for `revelation` and +2
for `relationship_change`. -/
theorem scoreMemory_decomposition (now : ℚ) (active : List String)
    (ctx : String) (m : MemoryEvent) :
    scoreMemory now active ctx m
      = max 0 (10 - (now - m.created_at) / 3600000)
        + 5 * ((active.filter
            (fun c => m.characters_involved.contains c)).length : ℚ)
        + 3 * ((active.filter (fun c => m.witnesses.contains c)).length : ℚ)
        + ((((splitWS (lowerStr ctx)).filter
            (fun w => 3 < w.length)).filter
            (fun w => strIncludes (lowerStr m.summary) w)).length : ℚ)
        + (if m.event_type == "revelation" then 3 else 0)
        + (if m.event_type == "relationship_change" then 2 else 0) := by
  unfold scoreMemory
  dsimp only
  rw [foldl_add2_map_sum (fun c => if m.characters_involved.contains c
        then (5 : ℚ) else 0)
      (fun c => if m.witnesses.contains c then (3 : ℚ) else 0),
    foldl_add_map_sum, sum_map_ite, sum_map_ite, sum_map_ite]
  ring

/-! ### Context formatting (`formatContextForInjection`, index.js lines
1091-1152) -/

/-- One relationship summary handed to the formatter
(`getRelationshipContext` output shape). -/
structure RelSummary where
  character : String
  trust : Int
  tension : Int
  rtype : String
  deriving DecidableEq, Repr

/-- JS `v || d` on strings (the empty string is falsy). -/
def jsOrStr (v d : String) : String := if v = "" then d else v

/-- One rendered relationship line, with the qualitative trust and tension
labels. -/
def relLine (r : RelSummary) : String :=
  let trustDesc :=
    if r.trust ≥ 7 then "high trust"
    else if r.trust ≤ 3 then "low trust"
    else "moderate trust"
  let tensionDesc :=
    if r.tension ≥ 7 then "high tension"
    else if r.tension ≥ 4 then "some tension"
    else ""
  "- " ++ r.character ++ ": " ++ jsOrStr r.rtype "acquaintance" ++ " (" ++
    trustDesc ++ (if tensionDesc ≠ "" then ", " ++ tensionDesc else "") ++ ")"

/-- One rendered memory line. -/
def memLine (m : MemoryEvent) : String :=
  "- " ++ (if m.is_secret then "[Secret] " else "") ++ m.summary

/-- The lines pushed before the memory section: header, optional emotional
state, optional relationship block. -/
def headLines (relationships : List RelSummary)
    (emotionalState characterName : String) : List String :=
  let l1 := ["[" ++ characterName ++ "'s Memory & State]", ""]
  let l2 :=
    if emotionalState ≠ "" ∧ emotionalState ≠ "neutral" then
      l1 ++ ["Current emotional state: " ++ emotionalState, ""]
    else l1
  if 0 < relationships.length then
    l2 ++ ("Relationships with present characters:" ::
      relationships.map relLine) ++ [""]
  else l2

/-- The memory section: a header line plus one line per memory, or nothing
when the list is empty. -/
def memorySection (memories : List MemoryEvent) : List String :=
  if 0 < memories.length then
    "Relevant memories:" :: memories.map memLine
  else []

/-- All lines of the rendered block, in push order. -/
def buildLines (memories : List MemoryEvent) (relationships : List RelSummary)
    (emotionalState characterName : String) : List String :=
  headLines relationships emotionalState characterName ++
    memorySection memories ++
    ["[End " ++ characterName ++ "'s Memory]"]

/-- JS `lines.join(sep)` for the newline separator. -/
def joinNL : List String → String
  | [] => ""
  | [a] => a
  | a :: b :: t => a ++ "\n" ++ joinNL (b :: t)

/-- The greedy reduced memory list of the shrink branch: include memories
in order while the running cost `summaryLength/4 + 5` stays within the
available budget; stop at the first one that does not fit. -/
def truncateMemories (available : ℚ) : ℚ → List MemoryEvent → List MemoryEvent
  | _, [] => []
  | current, m :: rest =>
      let cost := ((m.summary.length : ℚ)) / 4 + 5
      if current + cost ≤ available then
        m :: truncateMemories available (current + cost) rest
      else []

/-- `formatContextForInjection` with explicit fuel standing for the
recursion depth: build the text, estimate `length/4` tokens, and when the
estimate exceeds the budget re-invoke on the greedily reduced memory list
with a doubled budget ceiling.  `none` means the fuel ran out before the
recursion stopped. -/
def formatContextFuel : Nat → List MemoryEvent → List RelSummary →
    String → String → ℚ → Option String
  | 0, _, _, _, _, _ => none
  | n + 1, memories, relationships, emotionalState, characterName,
      tokenBudget =>
    let lines := buildLines memories relationships emotionalState
      characterName
    let result := joinNL lines
    let estimatedTokens : ℚ := (result.length : ℚ) / 4
    if estimatedTokens > tokenBudget then
      let overhead : ℚ := (((joinNL (lines.take 5)).length : ℚ) +
        ((joinNL (lines.drop (lines.length - 1))).length : ℚ)) / 4
      let availableForMemories := tokenBudget - overhead
      let truncatedMemories := truncateMemories availableForMemories 0
        memories
      formatContextFuel n truncatedMemories relationships emotionalState
        characterName (tokenBudget * 2)
    else some result

theorem truncateMemories_sublist (available : ℚ) :
    ∀ (current : ℚ) (ms : List MemoryEvent),
    (truncateMemories available current ms).Sublist ms
  | _, [] => List.Sublist.refl []
  | current, m :: rest => by
      unfold truncateMemories
      dsimp only
      split_ifs
      · exact List.Sublist.cons₂ m
          (truncateMemories_sublist available _ rest)
      · exact List.nil_sublist _

theorem joinNL_length :
    ∀ l : List String,
    (joinNL l).length = (l.map String.length).sum + l.length - 1
  | [] => by simp [joinNL]
  | [a] => by simp [joinNL]
  | a :: b :: t => by
      have ih := joinNL_length (b :: t)
      have hnl : ("\n" : String).length = 1 := rfl
      simp only [joinNL, String.length_append, List.map_cons, List.sum_cons,
        List.length_cons] at ih ⊢
      omega

theorem memorySection_weight_le {ms' ms : List MemoryEvent}
    (h : ms'.Sublist ms) :
    ((memorySection ms').map String.length).sum + (memorySection ms').length
      ≤ ((memorySection ms).map String.length).sum +
        (memorySection ms).length := by
  unfold memorySection
  rcases ms' with _ | ⟨m, rest⟩
  · simp
  · have hne : 0 < ms.length := by
      have := h.length_le
      simp only [List.length_cons] at this
      omega
    rw [if_pos (by simp), if_pos hne]
    have hmap : ((m :: rest).map memLine).Sublist (ms.map memLine) :=
      h.map memLine
    have hsum : (((m :: rest).map memLine).map String.length).sum
        ≤ ((ms.map memLine).map String.length).sum :=
      List.Sublist.sum_le_sum (hmap.map String.length)
        (by intro x _; omega)
    have hlen : ((m :: rest).map memLine).length ≤ (ms.map memLine).length :=
      hmap.length_le
    simp only [List.map_cons, List.sum_cons, List.length_cons] at hsum hlen ⊢
    omega

theorem joinNL_buildLines_le (rels : List RelSummary) (emo name : String)
    {ms' ms : List MemoryEvent} (h : ms'.Sublist ms) :
    (joinNL (buildLines ms' rels emo name)).length
      ≤ (joinNL (buildLines ms rels emo name)).length := by
  rw [joinNL_length, joinNL_length]
  unfold buildLines
  simp only [List.map_append, List.sum_append, List.length_append]
  have := memorySection_weight_le h
  omega

theorem formatContextFuel_isSome (rels : List RelSummary)
    (emo name : String) :
    ∀ (n : Nat) (ms : List MemoryEvent) (b : ℚ), 0 < b →
    ((joinNL (buildLines ms rels emo name)).length : ℚ) / 4 ≤ 2 ^ n * b →
    (formatContextFuel (n + 1) ms rels emo name b).isSome := by
  intro n
  induction n with
  | zero =>
      intro ms b hb hle
      rw [pow_zero, one_mul] at hle
      unfold formatContextFuel
      dsimp only
      rw [if_neg (by exact not_lt.mpr hle)]
      simp
  | succ k ih =>
      intro ms b hb hle
      unfold formatContextFuel
      dsimp only
      split_ifs with hgt
      · apply ih _ (b * 2) (by linarith)
        have key : ∀ ms2 : List MemoryEvent, ms2.Sublist ms →
            ((joinNL (buildLines ms2 rels emo name)).length : ℚ) / 4
              ≤ 2 ^ k * (b * 2) := by
          intro ms2 hsub2
          have h1 := joinNL_buildLines_le rels emo name hsub2
          have h2 : ((joinNL (buildLines ms2 rels emo name)).length : ℚ)
              ≤ ((joinNL (buildLines ms rels emo name)).length : ℚ) := by
            exact_mod_cast h1
          have h3 : (2 : ℚ) ^ (k + 1) * b = 2 ^ k * (b * 2) := by ring
          linarith
        exact key _ (truncateMemories_sublist _ _ ms)
      · simp

/-! ### Theorems for claim C9 -/

/-- **C9.** For every finite memory list, relationship/emotion summary and
positive token budget, the recursive shrink-to-fit terminates: some finite
fuel (a bounded number of recursive invocations) makes the formatter
return a string. -/
theorem formatContext_terminates (ms : List MemoryEvent)
    (rels : List RelSummary) (emo name : String) (b : ℚ) (hb : 0 < b) :
    ∃ n s, formatContextFuel n ms rels emo name b = some s := by
  obtain ⟨n, hn⟩ := pow_unbounded_of_one_lt
    (((joinNL (buildLines ms rels emo name)).length : ℚ) / 4 / b)
    (by norm_num : (1 : ℚ) < 2)
  have hle : ((joinNL (buildLines ms rels emo name)).length : ℚ) / 4
      ≤ 2 ^ n * b := by
    have := (div_le_iff₀ hb).mp hn.le
    linarith
  have hsome := formatContextFuel_isSome rels emo name n ms b hb hle
  rcases Option.isSome_iff_exists.mp hsome with ⟨s, hs⟩
  exact ⟨n + 1, s, hs⟩

/-- Witness for C9: a concrete one-memory list under budget 1 (which
forces at least one shrink cycle) still terminates with a string. -/
theorem formatContext_terminates_witness :
    ∃ n s, formatContextFuel n
      [{ id := "e1", event_type := "action",
         summary := "a rather long memory summary line", characters_involved := [],
         witnesses := [], location := "unknown", is_secret := false,
         emotional_impact := [], relationship_impact := [], message_ids := [0],
         created_at := 0 }] [] "neutral" "Char" 1 = some s :=
  formatContext_terminates
    [{ id := "e1", event_type := "action",
       summary := "a rather long memory summary line", characters_involved := [],
       witnesses := [], location := "unknown", is_secret := false,
       emotional_impact := [], relationship_impact := [], message_ids := [0],
       created_at := 0 }] [] "neutral" "Char" 1 (by norm_num)

/-! ### Theorems for claim C1 -/

/-- **C1.** Within the POV filtering step of retrieval, a secret event is
kept for a viewing character only if the character is among the event's
witnesses (case-insensitively) or the event's id is in that character's
`known_events`; the `characters_involved` route never admits a secret
event. -/
theorem pov_secret_only_witness_or_known
    (memories : List MemoryEvent) (characterName : String)
    (knownEventIds : List String) (m : MemoryEvent)
    (hmem : m ∈ accessibleMemories memories characterName knownEventIds)
    (hsec : m.is_secret = true) :
    m.witnesses.any (fun w => lowerStr w == lowerStr characterName) = true ∨
    knownEventIds.contains m.id = true := by
  have hvis : povVisible (lowerStr characterName) knownEventIds m = true :=
    (List.mem_filter.mp hmem).2
  unfold povVisible at hvis
  rw [hsec] at hvis
  simp only [Bool.not_true, Bool.false_and, Bool.or_false, Bool.false_or,
    Bool.or_eq_true] at hvis
  exact hvis

/-- Witness for C1: a concrete secret event admitted through the witness
list (case-insensitively). -/
theorem pov_secret_only_witness_or_known_witness :
    (let m : MemoryEvent :=
      { id := "e1", event_type := "action", summary := "s",
        characters_involved := ["Bob"], witnesses := ["ALICE"],
        location := "unknown", is_secret := true, emotional_impact := [],
        relationship_impact := [], message_ids := [0], created_at := 0 };
     m.witnesses.any (fun w => lowerStr w == lowerStr "Alice") = true ∨
     (["e9"] : List String).contains m.id = true) := by
  exact pov_secret_only_witness_or_known
    [{ id := "e1", event_type := "action", summary := "s",
       characters_involved := ["Bob"], witnesses := ["ALICE"],
       location := "unknown", is_secret := true, emotional_impact := [],
       relationship_impact := [], message_ids := [0], created_at := 0 }]
    "Alice" ["e9"]
    { id := "e1", event_type := "action", summary := "s",
      characters_involved := ["Bob"], witnesses := ["ALICE"],
      location := "unknown", is_secret := true, emotional_impact := [],
      relationship_impact := [], message_ids := [0], created_at := 0 }
    (by decide) (by decide)

end OpenVault
